import Mathlib

/-
Verification development for the NeuroLabel OC-scoring core.

Shallow embedding of the Python sources:
  oc_scorer.py (batch EEG and fNIRS scoring),
  neurolabel/brain/fnirs/windows.py (series building and windowing),
  neurolabel/brain/fnirs/metrics.py (baselines and window metrics),
  neurolabel/brain/fnirs/signal_math.py (MBLL optics),
  web/fnirs_live_service.py (live emission and fan-out),
  dataset.py (OC score matching).

Modelling conventions:
  timestamps and other values that only feed comparisons, counting and
  rounding are embedded as rationals; signal values that flow through
  exp, sqrt and log are embedded as reals.  The Python builtin round
  rounds half to even; pyRound and pyRoundR embed that convention.
-/

namespace NeuroLabel

/-- Python round: round half to even, over the rationals (computable). -/
def pyRound (q : ℚ) : ℤ :=
  if q - ⌊q⌋ < 1/2 then ⌊q⌋
  else if (1:ℚ)/2 < q - ⌊q⌋ then ⌊q⌋ + 1
  else if ⌊q⌋ % 2 = 0 then ⌊q⌋ else ⌊q⌋ + 1

/-- Python round: round half to even, over the reals. -/
noncomputable def pyRoundR (x : ℝ) : ℤ :=
  if x - ⌊x⌋ < 1/2 then ⌊x⌋
  else if (1:ℝ)/2 < x - ⌊x⌋ then ⌊x⌋ + 1
  else if ⌊x⌋ % 2 = 0 then ⌊x⌋ else ⌊x⌋ + 1

/-- Python round(x, 4): round a real to 4 decimal places. -/
noncomputable def round4 (x : ℝ) : ℝ := (pyRoundR (x * 10000) : ℝ) / 10000

/-- Python round(q, 2) on a rational timestamp. -/
def roundQ2 (q : ℚ) : ℚ := (pyRound (q * 100) : ℚ) / 100

/-- np.clip(x, lo, hi). -/
noncomputable def npClip (x lo hi : ℝ) : ℝ := min (max x lo) hi

/-- np.mean of a list (0 on the empty list, where numpy yields nan). -/
noncomputable def listMean (l : List ℝ) : ℝ := l.sum / l.length

/-- np.std of a list: population standard deviation (ddof = 0). -/
noncomputable def listStd (l : List ℝ) : ℝ :=
  Real.sqrt ((l.map (fun x => (x - listMean l) ^ 2)).sum / l.length)

/-- Logistic sigmoid 1 / (1 + exp(-x)). -/
noncomputable def sigmoid (x : ℝ) : ℝ := 1 / (1 + Real.exp (-x))

-- Basic bounds --------------------------------------------------------------

lemma pyRoundR_le {x : ℝ} {hi : ℤ} (h : x ≤ hi) : pyRoundR x ≤ hi := by
  unfold pyRoundR
  have hfl : ⌊x⌋ ≤ hi := by
    have h1 : ⌊x⌋ ≤ ⌊(hi : ℝ)⌋ := Int.floor_le_floor h
    simpa using h1
  split_ifs with h1 h2 h3
  · exact hfl
  · -- half < frac: x is not an integer, so the floor is strictly below hi
    have hx : (⌊x⌋ : ℝ) < x := by nlinarith [Int.floor_le x]
    have : (⌊x⌋ : ℝ) < (hi : ℝ) := lt_of_lt_of_le hx h
    exact_mod_cast Int.add_one_le_iff.mpr (by exact_mod_cast this)
  · exact hfl
  · have hx : (⌊x⌋ : ℝ) < x := by nlinarith [Int.floor_le x]
    have : (⌊x⌋ : ℝ) < (hi : ℝ) := lt_of_lt_of_le hx h
    exact_mod_cast Int.add_one_le_iff.mpr (by exact_mod_cast this)

lemma le_pyRoundR {x : ℝ} {lo : ℤ} (h : (lo : ℝ) ≤ x) : lo ≤ pyRoundR x := by
  unfold pyRoundR
  have hfl : lo ≤ ⌊x⌋ := Int.le_floor.mpr h
  split_ifs <;> omega

lemma round4_mem_unit {x : ℝ} (h0 : 0 ≤ x) (h1 : x ≤ 1) :
    0 ≤ round4 x ∧ round4 x ≤ 1 := by
  have hlo : (0 : ℤ) ≤ pyRoundR (x * 10000) := le_pyRoundR (by push_cast; linarith)
  have hhi : pyRoundR (x * 10000) ≤ (10000 : ℤ) := pyRoundR_le (by push_cast; linarith)
  constructor
  · unfold round4
    positivity
  · unfold round4
    rw [div_le_one (by norm_num)]
    exact_mod_cast hhi

lemma sigmoid_mem_unit (x : ℝ) : 0 ≤ sigmoid x ∧ sigmoid x ≤ 1 := by
  have hpos : (0 : ℝ) < 1 + Real.exp (-x) := by positivity
  constructor
  · exact le_of_lt (by unfold sigmoid; positivity)
  · unfold sigmoid
    rw [div_le_one hpos]
    nlinarith [Real.exp_pos (-x)]

lemma npClip_mem {x lo hi : ℝ} (h : lo ≤ hi) :
    lo ≤ npClip x lo hi ∧ npClip x lo hi ≤ hi := by
  unfold npClip
  constructor
  · exact le_min (le_max_right x lo) h
  · exact min_le_right _ _

-- ===========================================================================
-- neurolabel/brain/fnirs/signal_math.py
-- ===========================================================================

/-- np.clip(intensity, 1.0, None): clamp an intensity from below at 1. -/
noncomputable def clipIntensity (x : ℝ) : ℝ := max x 1

/-- Scalar core of intensity_to_od: -log10(clip(I,1,inf) / clip(I0,1,inf)).
The numpy version applies this elementwise (with broadcasting). -/
noncomputable def intensity_to_od (i i0 : ℝ) : ℝ :=
  -(Real.logb 10 (clipIntensity i / clipIntensity i0))

/-- Elementwise intensity_to_od over equal-length arrays (one channel). -/
noncomputable def intensity_to_od_arr (i i0 : List ℝ) : List ℝ :=
  List.zipWith intensity_to_od i i0

/-- od_to_concentrations: solve the fixed 2x2 MBLL system for one sample.
EPSILON_MATRIX * PATH_LENGTH = [[2.7, 6.3], [5.4, 2.16]] and np.linalg.pinv
of this invertible square matrix is its ordinary inverse, written out by
the 2x2 cofactor formula; the result is scaled mM -> uM by 1000. -/
noncomputable def od_to_concentrations (dod : ℝ × ℝ) : ℝ × ℝ :=
  let det : ℝ := 2.7 * 2.16 - 6.3 * 5.4
  (1000 * ((2.16 * dod.1 - 6.3 * dod.2) / det),
   1000 * ((-5.4 * dod.1 + 2.7 * dod.2) / det))

lemma clipIntensity_pos (x : ℝ) : 0 < clipIntensity x :=
  lt_of_lt_of_le one_pos (le_max_right x 1)

lemma intensity_to_od_self (x : ℝ) : intensity_to_od x x = 0 := by
  unfold intensity_to_od
  rw [div_self (ne_of_gt (clipIntensity_pos x)), Real.logb_one, neg_zero]

lemma intensity_to_od_antisymm (i i0 : ℝ) :
    intensity_to_od i i0 = -intensity_to_od i0 i := by
  unfold intensity_to_od
  rw [Real.logb_div (ne_of_gt (clipIntensity_pos i)) (ne_of_gt (clipIntensity_pos i0)),
      Real.logb_div (ne_of_gt (clipIntensity_pos i0)) (ne_of_gt (clipIntensity_pos i))]
  ring

lemma intensity_to_od_log_form (i i0 : ℝ) :
    intensity_to_od i i0 = Real.logb 10 (clipIntensity i0) - Real.logb 10 (clipIntensity i) := by
  unfold intensity_to_od
  rw [Real.logb_div (ne_of_gt (clipIntensity_pos i)) (ne_of_gt (clipIntensity_pos i0))]
  ring

-- ===========================================================================
-- neurolabel/brain/fnirs/windows.py : data model
-- ===========================================================================

/-- A raw fNIRS CSV row after numeric parsing (the row mapping that
_coerce_rows receives, with all eleven fields present and numeric). -/
structure FnirsRawRow where
  timestamp : ℚ
  ir_l : ℝ
  red_l : ℝ
  amb_l : ℝ
  ir_r : ℝ
  red_r : ℝ
  amb_r : ℝ
  ir_p : ℝ
  red_p : ℝ
  amb_p : ℝ
  temp : ℝ

/-- The coerced per-row dictionary built by _coerce_rows (lines 109-121):
ambient-corrected channels plus the passthrough fields. -/
structure FnirsCoercedRow where
  timestamp : ℚ
  red_l_corr : ℝ
  ir_l_corr : ℝ
  amb_l : ℝ
  red_r_corr : ℝ
  ir_r_corr : ℝ
  amb_r : ℝ
  red_p_corr : ℝ
  ir_p_corr : ℝ
  amb_p : ℝ
  temp : ℝ

/-- One row of _coerce_rows: ambient correction of the red/ir channels. -/
def coerce_row (r : FnirsRawRow) : FnirsCoercedRow :=
  { timestamp := r.timestamp
    red_l_corr := r.red_l - r.amb_l
    ir_l_corr := r.ir_l - r.amb_l
    amb_l := r.amb_l
    red_r_corr := r.red_r - r.amb_r
    ir_r_corr := r.ir_r - r.amb_r
    amb_r := r.amb_r
    red_p_corr := r.red_p - r.amb_p
    ir_p_corr := r.ir_p - r.amb_p
    amb_p := r.amb_p
    temp := r.temp }

/-- _coerce_rows: drop rows before trim_before, then coerce each row.
On this typed embedding every row parses, so the FnirsCsvError branch
(raised on a malformed row) cannot fire. -/
def coerce_rows (trimBefore : Option ℚ) (rows : List FnirsRawRow) : List FnirsCoercedRow :=
  (rows.filter fun r =>
    match trimBefore with
    | none => true
    | some tb => decide (tb ≤ r.timestamp)).map coerce_row

/-- FnirsRawSeries: column-major series of coerced samples.  Note that the
source stores the corrected pulse channels in the fields named red_p/ir_p. -/
structure FnirsRawSeries where
  timestamps : List ℚ
  red_l_corr : List ℝ
  ir_l_corr : List ℝ
  amb_l : List ℝ
  red_r_corr : List ℝ
  ir_r_corr : List ℝ
  amb_r : List ℝ
  red_p : List ℝ
  ir_p : List ℝ
  amb_p : List ℝ
  temp : List ℝ

/-- FnirsRawSeries.n_samples. -/
def FnirsRawSeries.n_samples (s : FnirsRawSeries) : ℕ := s.timestamps.length

/-- FnirsRawSeries.duration_sec. -/
def FnirsRawSeries.duration_sec (s : FnirsRawSeries) : ℚ :=
  if s.n_samples < 2 then 0 else s.timestamps.getLastD 0 - s.timestamps.headD 0

/-- FnirsRawSeries.sample_rate_est_hz. -/
def FnirsRawSeries.sample_rate_est_hz (s : FnirsRawSeries) : ℚ :=
  if s.n_samples < 2 then 0
  else if s.duration_sec ≤ 0 then 0
  else ((s.n_samples : ℚ) - 1) / s.duration_sec

/-- Reorder a list by a list of indices (the semantics of fancy indexing
arr[order] for an index array produced by np.argsort). -/
def applyPerm (p : List ℕ) (l : List α) (d : α) : List α :=
  p.map fun i => l.getD i d

/-- Contract of np.argsort(timestamps): the returned index list is a
permutation of range(n) under which the key list becomes non-decreasing.
The default sort kind is quicksort, which does not promise stability, so
the permutation is otherwise unconstrained. -/
def IsArgsortPerm (p : List ℕ) (keys : List ℚ) : Prop :=
  p.Perm (List.range keys.length) ∧ (applyPerm p keys 0).Sorted (· ≤ ·)

/-- series_from_rows, parameterized by the index permutation returned by
np.argsort (modelled nondeterministically through IsArgsortPerm). -/
def series_from_rows_with (p : List ℕ) (trimBefore : Option ℚ)
    (rows : List FnirsRawRow) : FnirsRawSeries :=
  let coerced := coerce_rows trimBefore rows
  { timestamps := applyPerm p (coerced.map (·.timestamp)) 0
    red_l_corr := applyPerm p (coerced.map (·.red_l_corr)) 0
    ir_l_corr := applyPerm p (coerced.map (·.ir_l_corr)) 0
    amb_l := applyPerm p (coerced.map (·.amb_l)) 0
    red_r_corr := applyPerm p (coerced.map (·.red_r_corr)) 0
    ir_r_corr := applyPerm p (coerced.map (·.ir_r_corr)) 0
    amb_r := applyPerm p (coerced.map (·.amb_r)) 0
    red_p := applyPerm p (coerced.map (·.red_p_corr)) 0
    ir_p := applyPerm p (coerced.map (·.ir_p_corr)) 0
    amb_p := applyPerm p (coerced.map (·.amb_p)) 0
    temp := applyPerm p (coerced.map (·.temp)) 0 }

/-- FnirsWindow: a contiguous slice of a series. -/
structure FnirsWindow where
  sec : ℚ
  start_idx : ℕ
  end_idx : ℕ
  timestamps : List ℚ
  red_l_corr : List ℝ
  ir_l_corr : List ℝ
  amb_l : List ℝ
  red_r_corr : List ℝ
  ir_r_corr : List ℝ
  amb_r : List ℝ
  red_p : List ℝ
  ir_p : List ℝ
  amb_p : List ℝ
  temp : List ℝ

/-- FnirsWindow.n_samples. -/
def FnirsWindow.n_samples (w : FnirsWindow) : ℕ := w.timestamps.length

/-- FnirsWindow.mid_timestamp: the timestamp at the midpoint index
(0.0 for an empty window, as in the source). -/
def FnirsWindow.mid_timestamp (w : FnirsWindow) : ℚ :=
  w.timestamps.getD (w.timestamps.length / 2) 0

/-- Start offsets of the sliding-window while-loop: start = 0, ss, 2*ss, ...
as long as start + ws <= n.  Callers only use this with ws <= n and ss > 0;
with ss = 0 the source loop would not terminate, a corner unreachable from
every claim (the estimated rate is clamped to at least 1 where this is used
by the fnirs window iterator). -/
def windowStarts (n ws ss : ℕ) : List ℕ :=
  if ss = 0 then [] else (List.range ((n - ws) / ss + 1)).map (· * ss)

/-- iter_windows over a series (window_sec and stride_sec in seconds):
max(1, round(rate)) samples per second, full windows only. -/
def iter_windows_rate (s : FnirsRawSeries) (rate_hint : Option ℚ) : ℕ :=
  let r0 : ℚ := (rate_hint.getD 0)
  let r1 : ℚ := if r0 = 0 then s.sample_rate_est_hz else r0
  let r2 : ℚ := if r1 = 0 then 11 else r1
  max 1 (pyRound r2).toNat

/-- One window slice of a series. -/
def sliceWindow (s : FnirsRawSeries) (sec : ℚ) (start ws : ℕ) : FnirsWindow :=
  { sec := sec
    start_idx := start
    end_idx := start + ws
    timestamps := (s.timestamps.drop start).take ws
    red_l_corr := (s.red_l_corr.drop start).take ws
    ir_l_corr := (s.ir_l_corr.drop start).take ws
    amb_l := (s.amb_l.drop start).take ws
    red_r_corr := (s.red_r_corr.drop start).take ws
    ir_r_corr := (s.ir_r_corr.drop start).take ws
    amb_r := (s.amb_r.drop start).take ws
    red_p := (s.red_p.drop start).take ws
    ir_p := (s.ir_p.drop start).take ws
    amb_p := (s.amb_p.drop start).take ws
    temp := (s.temp.drop start).take ws }

/-- iter_windows: the finite list of full windows of a series. -/
def iter_windows (s : FnirsRawSeries) (window_sec stride_sec : ℚ)
    (rate_hint : Option ℚ) : List FnirsWindow :=
  if s.n_samples < 2 then []
  else
    let rate := iter_windows_rate s rate_hint
    let ws := max 1 (pyRound ((rate : ℚ) * window_sec)).toNat
    let ss := max 1 (pyRound ((rate : ℚ) * stride_sec)).toNat
    if s.n_samples < ws then []
    else
      (windowStarts s.n_samples ws ss).enum.map
        fun si => sliceWindow s ((si.1 : ℚ) * stride_sec) si.2 ws

-- ===========================================================================
-- neurolabel/brain/fnirs/metrics.py
-- ===========================================================================

/-- EPS = 1e-6 from metrics.py. -/
noncomputable def EPS : ℝ := 1e-6

/-- _safe_std: the raw std when it exceeds EPS, else 1.0. -/
noncomputable def safe_std (l : List ℝ) : ℝ :=
  if EPS < listStd l then listStd l else 1

/-- FnirsBaseline: per-channel mean and (safe) std. -/
structure FnirsBaseline where
  red_l_mean : ℝ
  red_l_std : ℝ
  ir_l_mean : ℝ
  ir_l_std : ℝ
  amb_l_mean : ℝ
  amb_l_std : ℝ
  red_r_mean : ℝ
  red_r_std : ℝ
  ir_r_mean : ℝ
  ir_r_std : ℝ
  amb_r_mean : ℝ
  amb_r_std : ℝ

/-- compute_baseline: stats over the first baseline_sec seconds, widened to
the whole series when fewer than 2 samples fall in that span. -/
noncomputable def compute_baseline (s : FnirsRawSeries) (baseline_sec : ℕ) : FnirsBaseline :=
  let rate0 := if s.sample_rate_est_hz = 0 then 11 else s.sample_rate_est_hz
  let sample_rate := max 1 (pyRound rate0).toNat
  let n0 := min s.n_samples (sample_rate * baseline_sec)
  let n := if n0 < 2 then s.n_samples else n0
  let k := max 1 n
  { red_l_mean := listMean (s.red_l_corr.take k)
    red_l_std := safe_std (s.red_l_corr.take k)
    ir_l_mean := listMean (s.ir_l_corr.take k)
    ir_l_std := safe_std (s.ir_l_corr.take k)
    amb_l_mean := listMean (s.amb_l.take k)
    amb_l_std := safe_std (s.amb_l.take k)
    red_r_mean := listMean (s.red_r_corr.take k)
    red_r_std := safe_std (s.red_r_corr.take k)
    ir_r_mean := listMean (s.ir_r_corr.take k)
    ir_r_std := safe_std (s.ir_r_corr.take k)
    amb_r_mean := listMean (s.amb_r.take k)
    amb_r_std := safe_std (s.amb_r.take k) }

/-- _z_mean: mean of the per-sample z-scores, with the divisor floored
at EPS. -/
noncomputable def z_mean (values : List ℝ) (mean std : ℝ) : ℝ :=
  listMean (values.map fun v => (v - mean) / max std EPS)

/-- FnirsRawWindowMetrics. -/
structure FnirsRawWindowMetrics where
  sec : ℚ
  timestamp : ℚ
  left_raw_score : ℝ
  right_raw_score : ℝ
  n_samples : ℕ
  sample_rate_est_hz : ℚ
  pulse_quality : ℝ
  left_red_z : ℝ
  left_ir_z : ℝ
  left_amb_z : ℝ
  right_red_z : ℝ
  right_ir_z : ℝ
  right_amb_z : ℝ

/-- compute_window_metrics: per-channel z-means, the weighted raw score per
side clipped to [-4, 4], per-channel z fields clipped to [-6, 6], and the
pulse-quality diagnostic. -/
noncomputable def compute_window_metrics (w : FnirsWindow) (b : FnirsBaseline)
    (sample_rate_est_hz : ℚ) : FnirsRawWindowMetrics :=
  let left_red_z := z_mean w.red_l_corr b.red_l_mean b.red_l_std
  let left_ir_z := z_mean w.ir_l_corr b.ir_l_mean b.ir_l_std
  let left_amb_z := z_mean w.amb_l b.amb_l_mean b.amb_l_std
  let right_red_z := z_mean w.red_r_corr b.red_r_mean b.red_r_std
  let right_ir_z := z_mean w.ir_r_corr b.ir_r_mean b.ir_r_std
  let right_amb_z := z_mean w.amb_r b.amb_r_mean b.amb_r_std
  let left_score := 0.44 * left_red_z + 0.44 * left_ir_z - 0.12 * left_amb_z
  let right_score := 0.44 * right_red_z + 0.44 * right_ir_z - 0.12 * right_amb_z
  { sec := w.sec
    timestamp := w.mid_timestamp
    left_raw_score := npClip left_score (-4) 4
    right_raw_score := npClip right_score (-4) 4
    n_samples := w.n_samples
    sample_rate_est_hz := sample_rate_est_hz
    pulse_quality := listStd w.ir_p + listStd w.red_p + 0.15 * listStd w.amb_p
    left_red_z := npClip left_red_z (-6) 6
    left_ir_z := npClip left_ir_z (-6) 6
    left_amb_z := npClip left_amb_z (-6) 6
    right_red_z := npClip right_red_z (-6) 6
    right_ir_z := npClip right_ir_z (-6) 6
    right_amb_z := npClip right_amb_z (-6) 6 }

-- ===========================================================================
-- oc_scorer.py
-- ===========================================================================

/-- Constants from oc_scorer.py. -/
def DEFAULT_SAMPLE_RATE : ℤ := 250

/-- Nominal fNIRS rate. -/
def DEFAULT_FNIRS_SAMPLE_RATE : ℤ := 11

/-- Window length in seconds. -/
def WINDOW_SEC : ℕ := 4

/-- Stride in seconds. -/
def STRIDE_SEC : ℕ := 1

/-- EEG baseline span (in stride-spaced windows, one per second). -/
def BASELINE_SEC : ℕ := 120

/-- Minimum baseline span before widening to the whole recording. -/
def MIN_BASELINE_SEC : ℕ := 10

/-- fNIRS baseline span. -/
def FNIRS_BASELINE_SEC : ℕ := 30

/-- EPSILON = 1e-10 from oc_scorer.py. -/
noncomputable def EPSILON : ℝ := 1e-10

/-- Frontal channel indices Fp1, Fp2, Fpz, Fz. -/
def FRONTAL_CHANNELS : List ℕ := [0, 1, 2, 9]

/-- One parsed EEG CSV row: timestamp plus the 20 channel values. -/
structure EegSample where
  timestamp : ℚ
  channels : List ℝ

/-- The trim_before filter: keep rows with ts >= trim_before. -/
def eegKeep (trimBefore : Option ℚ) (rows : List EegSample) : List EegSample :=
  rows.filter fun r =>
    match trimBefore with
    | none => true
    | some tb => decide (tb ≤ r.timestamp)

/-- Frontal-channel extraction: row[ch + 1] for ch in FRONTAL_CHANNELS. -/
def frontal (s : EegSample) : List ℝ :=
  FRONTAL_CHANNELS.map fun ch => s.channels.getD ch 0

/-- Post-trim timestamps of the EEG series. -/
def eegTimestamps (trimBefore : Option ℚ) (rows : List EegSample) : List ℚ :=
  (eegKeep trimBefore rows).map (·.timestamp)

/-- EEG sample-rate auto-detection (oc_scorer.py lines 116-123): round of
(n - 1) / (timestamps[-1] - timestamps[0]) when n > 1 and the span is
positive, DEFAULT_SAMPLE_RATE otherwise (the source rounds the default
too, which is a no-op). -/
def estSampleRateEeg (ts : List ℚ) : ℤ :=
  if 1 < ts.length then
    pyRound (if 0 < ts.getLastD 0 - ts.headD 0
      then ((ts.length : ℚ) - 1) / (ts.getLastD 0 - ts.headD 0)
      else (DEFAULT_SAMPLE_RATE : ℚ))
  else DEFAULT_SAMPLE_RATE

/-- window_samples = sample_rate * WINDOW_SEC. -/
def eegWindowSamples (ts : List ℚ) : ℕ := (estSampleRateEeg ts * (WINDOW_SEC : ℤ)).toNat

/-- stride_samples = sample_rate * STRIDE_SEC. -/
def eegStrideSamples (ts : List ℚ) : ℕ := (estSampleRateEeg ts * (STRIDE_SEC : ℤ)).toNat

/-- Baseline entry count: min(baselineSec, n) widened to n when below
MIN_BASELINE_SEC. -/
def baselineCount (baselineSec n : ℕ) : ℕ :=
  let c := min baselineSec n
  if c < MIN_BASELINE_SEC then n else c

/-- Mean of the baseline segment of an index list. -/
noncomputable def baseMeanOf (b n : ℕ) (l : List ℝ) : ℝ :=
  listMean (l.take (baselineCount b n))

/-- Std of the baseline segment of an index list, plus EPSILON. -/
noncomputable def baseStdOf (b n : ℕ) (l : List ℝ) : ℝ :=
  listStd (l.take (baselineCount b n)) + EPSILON

/-- Z-scores of a whole index list against its baseline segment. -/
noncomputable def zListOf (b n : ℕ) (l : List ℝ) : List ℝ :=
  l.map fun x => (x - baseMeanOf b n l) / baseStdOf b n l

/-- ScoreFuser: z-score both index lists against their baseline segments,
apply the fixed-bias sigmoid 0.6 * z_eng - 0.4 * z_fat + 0.8 and clamp to
[0, 1].  The parameter n is n_windows as computed at the call site. -/
noncomputable def fuseOcScores (b n : ℕ) (fat eng : List ℝ) : List ℝ :=
  List.zipWith (fun ze zf => npClip (sigmoid (0.6 * ze - 0.4 * zf + 0.8)) 0 1)
    (zListOf b n eng) (zListOf b n fat)

/-- OCScoreRecord. -/
structure OcRecord where
  sec : ℕ
  timestamp : ℚ
  fatigue_idx : ℝ
  engagement_idx : ℝ
  oc_score : ℝ

/-- The result-list construction shared by both batch scorers: record i has
sec = i * STRIDE_SEC, the window timestamp rounded to 2 decimals and the
indices and OC score rounded to 4 decimals. -/
noncomputable def buildOcRecords (nw : ℕ) (wts : List ℚ) (fat eng oc : List ℝ) :
    List OcRecord :=
  (List.range nw).map fun i =>
    { sec := i * STRIDE_SEC
      timestamp := roundQ2 (wts.getD i 0)
      fatigue_idx := round4 (fat.getD i 0)
      engagement_idx := round4 (eng.getD i 0)
      oc_score := round4 (oc.getD i 0) }

/-- Default record used only as the out-of-range value of List.getD in
statements; every claim access is guarded by an in-range hypothesis. -/
noncomputable def oc0 : OcRecord :=
  { sec := 0, timestamp := 0, fatigue_idx := 0, engagement_idx := 0, oc_score := 0 }

/-- Per-window EEG (fatigue_idx, engagement_idx) pairs.  The Welch PSD and
band-power integration (oc_scorer.py lines 153-169) depend on
scipy.signal.welch, an external library, so the window-to-index map is a
parameter; no claim depends on its value. -/
noncomputable def eegWindowPairs (wIdx : List (List ℝ) → ℝ × ℝ)
    (trimBefore : Option ℚ) (rows : List EegSample) : List (ℝ × ℝ) :=
  let kept := eegKeep trimBefore rows
  let ts := kept.map (·.timestamp)
  (windowStarts kept.length (eegWindowSamples ts) (eegStrideSamples ts)).map
    fun st => wIdx (((kept.drop st).take (eegWindowSamples ts)).map frontal)

/-- fatigue_indices. -/
noncomputable def eegFatigueList (wIdx : List (List ℝ) → ℝ × ℝ)
    (trimBefore : Option ℚ) (rows : List EegSample) : List ℝ :=
  (eegWindowPairs wIdx trimBefore rows).map (·.1)

/-- engagement_indices. -/
noncomputable def eegEngagementList (wIdx : List (List ℝ) → ℝ × ℝ)
    (trimBefore : Option ℚ) (rows : List EegSample) : List ℝ :=
  (eegWindowPairs wIdx trimBefore rows).map (·.2)

/-- Per-window wall-clock timestamps: timestamps[min(start + ws/2, n-1)]. -/
def eegWindowTimestamps (trimBefore : Option ℚ) (rows : List EegSample) : List ℚ :=
  let ts := eegTimestamps trimBefore rows
  let n := ts.length
  let ws := eegWindowSamples ts
  (windowStarts n ws (eegStrideSamples ts)).map
    fun st => ts.getD (min (st + ws / 2) (n - 1)) 0

/-- oc_scores of the EEG pipeline (z-score, sigmoid fusion, clip). -/
noncomputable def eegOcList (wIdx : List (List ℝ) → ℝ × ℝ)
    (trimBefore : Option ℚ) (rows : List EegSample) : List ℝ :=
  fuseOcScores BASELINE_SEC (eegFatigueList wIdx trimBefore rows).length
    (eegFatigueList wIdx trimBefore rows) (eegEngagementList wIdx trimBefore rows)

/-- compute_oc_scores_eeg: returns [] when fewer than one window of samples
remains after trimming, otherwise the per-window OC records. -/
noncomputable def compute_oc_scores_eeg (wIdx : List (List ℝ) → ℝ × ℝ)
    (trimBefore : Option ℚ) (rows : List EegSample) : List OcRecord :=
  let kept := eegKeep trimBefore rows
  let ts := kept.map (·.timestamp)
  if kept.length < eegWindowSamples ts then []
  else
    buildOcRecords (eegWindowPairs wIdx trimBefore rows).length
      (eegWindowTimestamps trimBefore rows)
      (eegFatigueList wIdx trimBefore rows)
      (eegEngagementList wIdx trimBefore rows)
      (eegOcList wIdx trimBefore rows)

/-- One parsed fNIRS CSV row (the six channels the batch scorer reads). -/
structure FnirsSample where
  timestamp : ℚ
  ir_l : ℝ
  red_l : ℝ
  amb_l : ℝ
  ir_r : ℝ
  red_r : ℝ
  amb_r : ℝ

/-- The trim_before filter for fNIRS rows. -/
def fnirsKeep (trimBefore : Option ℚ) (rows : List FnirsSample) : List FnirsSample :=
  rows.filter fun r =>
    match trimBefore with
    | none => true
    | some tb => decide (tb ≤ r.timestamp)

/-- Post-trim fNIRS timestamps. -/
def fnirsTimestamps (trimBefore : Option ℚ) (rows : List FnirsSample) : List ℚ :=
  (fnirsKeep trimBefore rows).map (·.timestamp)

/-- fNIRS sample-rate auto-detection (oc_scorer.py lines 323-329); only
reached with at least 2 samples. -/
def estSampleRateFnirs (ts : List ℚ) : ℤ :=
  if 0 < ts.getLastD 0 - ts.headD 0
  then pyRound (((ts.length : ℚ) - 1) / (ts.getLastD 0 - ts.headD 0))
  else DEFAULT_FNIRS_SAMPLE_RATE

/-- fNIRS window_samples. -/
def fnirsWindowSamples (ts : List ℚ) : ℕ := (estSampleRateFnirs ts * (WINDOW_SEC : ℤ)).toNat

/-- fNIRS stride_samples. -/
def fnirsStrideSamples (ts : List ℚ) : ℕ := (estSampleRateFnirs ts * (STRIDE_SEC : ℤ)).toNat

/-- Ambient-corrected left intensities, column order (Red, IR). -/
noncomputable def intensityL (r : FnirsSample) : ℝ × ℝ :=
  (r.red_l - r.amb_l, r.ir_l - r.amb_l)

/-- Ambient-corrected right intensities, column order (Red, IR). -/
noncomputable def intensityR (r : FnirsSample) : ℝ × ℝ :=
  (r.red_r - r.amb_r, r.ir_r - r.amb_r)

/-- baseline_samples = min(sample_rate * FNIRS_BASELINE_SEC, n_samples). -/
def fnirsBaselineSamples (ts : List ℚ) : ℕ :=
  min (estSampleRateFnirs ts * (FNIRS_BASELINE_SEC : ℤ)).toNat ts.length

/-- Columnwise mean of the first k intensity pairs. -/
noncomputable def intensityBaseline (ints : List (ℝ × ℝ)) (k : ℕ) : ℝ × ℝ :=
  (listMean ((ints.take k).map (·.1)), listMean ((ints.take k).map (·.2)))

/-- Per-window MBLL index pair (engagement, fatigue): delta OD of each
sample against the per-side baseline intensity, MBLL inversion, then mean
HbO (engagement) and mean HbR (fatigue) averaged across the two sides. -/
noncomputable def fnirsWindowPair (winL winR : List (ℝ × ℝ)) (bL bR : ℝ × ℝ) : ℝ × ℝ :=
  let concL := winL.map fun p =>
    od_to_concentrations (intensity_to_od p.1 bL.1, intensity_to_od p.2 bL.2)
  let concR := winR.map fun p =>
    od_to_concentrations (intensity_to_od p.1 bR.1, intensity_to_od p.2 bR.2)
  let hbo := List.zipWith (fun a b => (a.1 + b.1) / 2) concL concR
  let hbr := List.zipWith (fun a b => (a.2 + b.2) / 2) concL concR
  (listMean hbo, listMean hbr)

/-- Per-window (engagement, fatigue) pairs of the fNIRS batch scorer. -/
noncomputable def fnirsWindowPairs (trimBefore : Option ℚ) (rows : List FnirsSample) :
    List (ℝ × ℝ) :=
  let kept := fnirsKeep trimBefore rows
  let ts := kept.map (·.timestamp)
  let intsL := kept.map intensityL
  let intsR := kept.map intensityR
  let bs := fnirsBaselineSamples ts
  let bL := intensityBaseline intsL bs
  let bR := intensityBaseline intsR bs
  let ws := fnirsWindowSamples ts
  (windowStarts kept.length ws (fnirsStrideSamples ts)).map fun st =>
    fnirsWindowPair ((intsL.drop st).take ws) ((intsR.drop st).take ws) bL bR

/-- engagement_indices. -/
noncomputable def fnirsEngagementList (trimBefore : Option ℚ)
    (rows : List FnirsSample) : List ℝ :=
  (fnirsWindowPairs trimBefore rows).map (·.1)

/-- fatigue_indices. -/
noncomputable def fnirsFatigueList (trimBefore : Option ℚ)
    (rows : List FnirsSample) : List ℝ :=
  (fnirsWindowPairs trimBefore rows).map (·.2)

/-- Per-window wall-clock timestamps of the fNIRS scorer. -/
def fnirsWindowTimestamps (trimBefore : Option ℚ) (rows : List FnirsSample) : List ℚ :=
  let ts := fnirsTimestamps trimBefore rows
  let n := ts.length
  let ws := fnirsWindowSamples ts
  (windowStarts n ws (fnirsStrideSamples ts)).map
    fun st => ts.getD (min (st + ws / 2) (n - 1)) 0

/-- oc_scores of the fNIRS pipeline (same fusion as EEG, 30 s baseline;
n_windows is taken from engagement_indices as in the source). -/
noncomputable def fnirsOcList (trimBefore : Option ℚ) (rows : List FnirsSample) : List ℝ :=
  fuseOcScores FNIRS_BASELINE_SEC (fnirsEngagementList trimBefore rows).length
    (fnirsFatigueList trimBefore rows) (fnirsEngagementList trimBefore rows)

/-- compute_oc_scores_fnirs: [] with fewer than 2 samples, [] with fewer
than one window of samples, [] with zero windows, else the OC records. -/
noncomputable def compute_oc_scores_fnirs (trimBefore : Option ℚ)
    (rows : List FnirsSample) : List OcRecord :=
  let kept := fnirsKeep trimBefore rows
  let ts := kept.map (·.timestamp)
  if kept.length < 2 then []
  else if kept.length < fnirsWindowSamples ts then []
  else if (fnirsWindowPairs trimBefore rows).length = 0 then []
  else
    buildOcRecords (fnirsWindowPairs trimBefore rows).length
      (fnirsWindowTimestamps trimBefore rows)
      (fnirsFatigueList trimBefore rows)
      (fnirsEngagementList trimBefore rows)
      (fnirsOcList trimBefore rows)

-- ===========================================================================
-- web/fnirs_live_service.py : delayed emission and fan-out
-- ===========================================================================

/-- The lock-protected emission state of FnirsLiveService: the last emitted
window timestamp plus (as history, for the statement of monotonicity) the
sequence of timestamps broadcast so far. -/
structure EmitState where
  lastEmitted : ℚ
  emitted : List ℚ

/-- One call of _emit_delayed_heatmap_if_ready as observed by the system:
the window mid-timestamps recomputed from the rows snapshot, the snapshot
of _latest_sensor_ts and _display_delay_sec, and the snapshot of
_last_emitted_window_ts taken under the lock at the start of the call.  In
a race-free run lastEmittedSnap equals the state value at commit time;
under concurrent ticks it may be stale, so it is unconstrained here. -/
structure EmitTick where
  windows : List ℚ
  latestSensorTs : ℚ
  displayDelay : ℚ
  lastEmittedSnap : ℚ

/-- Candidate selection loop (lines 222-228): the last window whose
timestamp is at most the display cutoff and strictly above the snapshot of
the last-emitted marker. -/
def selectCandidate (windows : List ℚ) (cutoff snap : ℚ) : Option ℚ :=
  (windows.filter fun t => decide (t ≤ cutoff ∧ snap < t)).getLast?

/-- The locked re-check and update (lines 243-246): the candidate is
dropped unless it still strictly exceeds the current marker; otherwise the
marker is advanced and the frame broadcast.  This block runs under the
service lock, hence atomically. -/
def commitEmit (s : EmitState) (cand : Option ℚ) : EmitState :=
  match cand with
  | none => s
  | some c => if c ≤ s.lastEmitted then s else ⟨c, s.emitted ++ [c]⟩

/-- One full _emit_delayed_heatmap_if_ready call. -/
def emitStep (s : EmitState) (t : EmitTick) : EmitState :=
  commitEmit s (selectCandidate t.windows (t.latestSensorTs - t.displayDelay) t.lastEmittedSnap)

/-- A whole (possibly interleaved) sequence of emission attempts. -/
def runTicks (s : EmitState) (ticks : List EmitTick) : EmitState :=
  ticks.foldl emitStep s

/-- The commit-time invariant of the emission state: the history is
strictly increasing and the marker dominates every past emission. -/
def EmitInv (s : EmitState) : Prop :=
  s.emitted.Chain' (· < ·) ∧ ∀ x ∈ s.emitted, x ≤ s.lastEmitted

/-- Queue capacity from subscribe(): queue.Queue(maxsize=200). -/
def SUBSCRIBE_MAXSIZE : ℕ := 200

/-- The _broadcast delivery to one subscriber queue (head = oldest):
put_nowait, and on queue.Full a get_nowait of the oldest message followed
by a retried put_nowait.  Both puts are non-blocking calls; the function is
total, mirroring that the producer never waits. -/
def put_nowait_drop_oldest (q : List M) (m : M) : List M :=
  if q.length < SUBSCRIBE_MAXSIZE then q ++ [m] else q.drop 1 ++ [m]

/-- _broadcast: deliver one payload to every subscriber queue. -/
def broadcastAll (subs : List (List M)) (m : M) : List (List M) :=
  subs.map (put_nowait_drop_oldest · m)

-- ===========================================================================
-- dataset.py : _match_oc_score
-- ===========================================================================

/-- A parsed game JSONL record as seen by _match_oc_score: the optional
wall-clock field t and the optional integer fields sec and s. -/
structure GameRecord where
  t : Option ℚ
  sec : Option ℤ
  s : Option ℤ

/-- bisect.bisect_left on a sorted key list: the number of keys strictly
below x, which is the insertion point the binary search returns. -/
def bisect_left (keys : List ℚ) (x : ℚ) : ℕ :=
  keys.countP fun k => decide (k < x)

/-- The candidate loop bounds check: of (idx - 1, idx), those inside
[0, len), in that order (Python int arithmetic, so idx - 1 at idx = 0 is
-1 and is skipped). -/
def candIdxs (idx len : ℕ) : List ℕ :=
  (([(idx : ℤ) - 1, (idx : ℤ)]).filter fun c => decide (0 ≤ c ∧ c < (len : ℤ))).map Int.toNat

/-- The best-candidate scan: keep the first candidate, replace it only on a
strictly smaller distance (so ties keep the earlier key). -/
def bestOver (keys : List ℚ) (t : ℚ) (cands : List ℕ) : Option ℕ :=
  cands.foldl
    (fun acc c =>
      match acc with
      | none => some c
      | some b => if |keys.getD c 0 - t| < |keys.getD b 0 - t| then some c else some b)
    none

/-- _match_oc_score: nearest-timestamp match within 2.5 s when the record
has t and the timestamp index is nonempty, else exact lookup by sec
(falling back to field s, then 0); unmatched records get (0.5, False). -/
def match_oc_score (rec : GameRecord) (keys vals : List ℚ) (bySec : ℤ → Option ℚ) :
    ℚ × Bool :=
  if keys ≠ [] ∧ rec.t.isSome then
    match bestOver keys (rec.t.getD 0)
        (candIdxs (bisect_left keys (rec.t.getD 0)) keys.length) with
    | some b =>
      if 5/2 < |keys.getD b 0 - rec.t.getD 0| then (1/2, false) else (vals.getD b 0, true)
    | none => (1/2, false)
  else
    match bySec (rec.sec.getD (rec.s.getD 0)) with
    | some v => (v, true)
    | none => (1/2, false)

-- ===========================================================================
-- Claim theorems
-- ===========================================================================

lemma intensity_to_od_arr_self (b : List ℝ) :
    intensity_to_od_arr b b = b.map fun _ => 0 := by
  induction b with
  | nil => rfl
  | cons x xs ih =>
    simp only [intensity_to_od_arr, List.zipWith_cons_cons, List.map_cons] at *
    rw [intensity_to_od_self, ih]

lemma intensity_to_od_arr_antisymm (i i0 : List ℝ) :
    intensity_to_od_arr i i0 = (intensity_to_od_arr i0 i).map Neg.neg := by
  induction i generalizing i0 with
  | nil => cases i0 <;> rfl
  | cons x xs ih =>
    cases i0 with
    | nil => rfl
    | cons y ys =>
      simp only [intensity_to_od_arr, List.zipWith_cons_cons, List.map_cons] at *
      rw [intensity_to_od_antisymm, ih]

/-- C9: intensity_to_od is identically zero when evaluated at its own
baseline, antisymmetric in its two arguments, and equal to
log10(clip(I0, 1, inf)) - log10(clip(I, 1, inf)) pointwise. -/
theorem c9_intensity_to_od_zero_antisymm :
    (∀ b : List ℝ, intensity_to_od_arr b b = b.map fun _ => 0) ∧
    (∀ i i0 : List ℝ, intensity_to_od_arr i i0 = (intensity_to_od_arr i0 i).map Neg.neg) ∧
    (∀ x y : ℝ, intensity_to_od x y =
      Real.logb 10 (clipIntensity y) - Real.logb 10 (clipIntensity x)) :=
  ⟨intensity_to_od_arr_self, intensity_to_od_arr_antisymm, intensity_to_od_log_form⟩

/-- C10: every record produced by compute_window_metrics has raw side
scores in [-4, 4] and all six per-channel z fields in [-6, 6], for every
window, baseline and rate. -/
theorem c10_window_metrics_bounded (w : FnirsWindow) (b : FnirsBaseline) (sr : ℚ) :
    (-4 ≤ (compute_window_metrics w b sr).left_raw_score ∧
      (compute_window_metrics w b sr).left_raw_score ≤ 4) ∧
    (-4 ≤ (compute_window_metrics w b sr).right_raw_score ∧
      (compute_window_metrics w b sr).right_raw_score ≤ 4) ∧
    (-6 ≤ (compute_window_metrics w b sr).left_red_z ∧
      (compute_window_metrics w b sr).left_red_z ≤ 6) ∧
    (-6 ≤ (compute_window_metrics w b sr).left_ir_z ∧
      (compute_window_metrics w b sr).left_ir_z ≤ 6) ∧
    (-6 ≤ (compute_window_metrics w b sr).left_amb_z ∧
      (compute_window_metrics w b sr).left_amb_z ≤ 6) ∧
    (-6 ≤ (compute_window_metrics w b sr).right_red_z ∧
      (compute_window_metrics w b sr).right_red_z ≤ 6) ∧
    (-6 ≤ (compute_window_metrics w b sr).right_ir_z ∧
      (compute_window_metrics w b sr).right_ir_z ≤ 6) ∧
    (-6 ≤ (compute_window_metrics w b sr).right_amb_z ∧
      (compute_window_metrics w b sr).right_amb_z ≤ 6) := by
  simp only [compute_window_metrics]
  exact ⟨npClip_mem (by norm_num), npClip_mem (by norm_num), npClip_mem (by norm_num),
    npClip_mem (by norm_num), npClip_mem (by norm_num), npClip_mem (by norm_num),
    npClip_mem (by norm_num), npClip_mem (by norm_num)⟩

lemma listStd_nonneg (l : List ℝ) : 0 ≤ listStd l := Real.sqrt_nonneg _

lemma safe_std_ge (l : List ℝ) : EPS ≤ safe_std l ∧ 0 < safe_std l := by
  unfold safe_std
  split_ifs with h
  · refine ⟨le_of_lt h, lt_of_lt_of_le ?_ (le_of_lt h)⟩
    unfold EPS
    norm_num
  · constructor
    · unfold EPS
      norm_num
    · norm_num

/-- C8: every std used as a z-score divisor is floor-clamped away from
zero: the batch scorers add EPSILON = 1e-10 to a nonnegative std, the
fnirs metrics replace a std at or below EPS = 1e-6 by 1.0, every field of
a computed baseline obeys that bound, and the z-mean divisor is floored at
EPS; all of these are strictly positive reals. -/
theorem c8_std_never_degenerate :
    (∀ (b n : ℕ) (l : List ℝ), EPSILON ≤ baseStdOf b n l ∧ 0 < baseStdOf b n l) ∧
    (∀ l : List ℝ, EPS ≤ safe_std l ∧ 0 < safe_std l) ∧
    (∀ std : ℝ, EPS ≤ max std EPS ∧ 0 < max std EPS) ∧
    (∀ (s : FnirsRawSeries) (bs : ℕ),
      EPS ≤ (compute_baseline s bs).red_l_std ∧ EPS ≤ (compute_baseline s bs).ir_l_std ∧
      EPS ≤ (compute_baseline s bs).amb_l_std ∧ EPS ≤ (compute_baseline s bs).red_r_std ∧
      EPS ≤ (compute_baseline s bs).ir_r_std ∧ EPS ≤ (compute_baseline s bs).amb_r_std) := by
  have heps : (0 : ℝ) < EPS := by unfold EPS; norm_num
  refine ⟨fun b n l => ?_, safe_std_ge, fun std => ?_, fun s bs => ?_⟩
  · have h1 : (0 : ℝ) < EPSILON := by unfold EPSILON; norm_num
    have h2 := listStd_nonneg (l.take (baselineCount b n))
    unfold baseStdOf
    constructor <;> linarith
  · exact ⟨le_max_right _ _, lt_of_lt_of_le heps (le_max_right _ _)⟩
  · simp only [compute_baseline]
    exact ⟨(safe_std_ge _).1, (safe_std_ge _).1, (safe_std_ge _).1,
      (safe_std_ge _).1, (safe_std_ge _).1, (safe_std_ge _).1⟩

/-- C7: _broadcast delivery to a subscriber queue never grows it past the
fixed capacity 200; a full queue has its oldest message evicted before the
new message is appended, a non-full queue just gets the new message, and
per-queue delivery is what _broadcast applies to every subscriber.  The
delivery function is total (put_nowait only), mirroring that the producer
never waits. -/
theorem c7_broadcast_bounded_drop_oldest (M : Type) (q : List M) (m : M) :
    (q.length ≤ SUBSCRIBE_MAXSIZE →
      (put_nowait_drop_oldest q m).length ≤ SUBSCRIBE_MAXSIZE) ∧
    (q.length = SUBSCRIBE_MAXSIZE → put_nowait_drop_oldest q m = q.drop 1 ++ [m]) ∧
    (q.length < SUBSCRIBE_MAXSIZE → put_nowait_drop_oldest q m = q ++ [m]) ∧
    (∀ subs : List (List M), q ∈ subs → put_nowait_drop_oldest q m ∈ broadcastAll subs m) := by
  refine ⟨?_, ?_, ?_, ?_⟩
  · intro h
    unfold put_nowait_drop_oldest SUBSCRIBE_MAXSIZE
    unfold SUBSCRIBE_MAXSIZE at h
    split_ifs with hlt
    · simp only [List.length_append, List.length_cons, List.length_nil]
      omega
    · simp only [List.length_append, List.length_drop, List.length_cons, List.length_nil]
      omega
  · intro h
    unfold put_nowait_drop_oldest
    rw [if_neg (by omega)]
  · intro h
    unfold put_nowait_drop_oldest
    rw [if_pos h]
  · intro subs hq
    exact List.mem_map_of_mem _ hq

/-- Witness for C7 at concrete queues: an empty queue grows to one message,
and a full queue of 200 zeros drops its oldest entry for the new message. -/
theorem c7_witness :
    (put_nowait_drop_oldest ([] : List ℕ) 7).length ≤ SUBSCRIBE_MAXSIZE ∧
    put_nowait_drop_oldest (List.replicate 200 (0 : ℕ)) 7 =
      (List.replicate 200 (0 : ℕ)).drop 1 ++ [7] ∧
    put_nowait_drop_oldest ([] : List ℕ) 7 = [] ++ [7] :=
  ⟨(c7_broadcast_bounded_drop_oldest ℕ [] 7).1 (by simp [SUBSCRIBE_MAXSIZE]),
   (c7_broadcast_bounded_drop_oldest ℕ (List.replicate 200 0) 7).2.1
     (by rw [List.length_replicate, SUBSCRIBE_MAXSIZE]),
   (c7_broadcast_bounded_drop_oldest ℕ [] 7).2.2.1 (by simp [SUBSCRIBE_MAXSIZE])⟩

lemma getLast?_mem_list {α : Type} {l : List α} {a : α} (h : l.getLast? = some a) :
    a ∈ l := by
  have hx : a ∈ l.getLast? := Option.mem_def.mpr h
  rcases List.mem_getLast?_eq_getLast hx with ⟨hne, heq⟩
  exact heq ▸ List.getLast_mem hne

lemma commitEmit_inv {s : EmitState} (h : EmitInv s) (cand : Option ℚ) :
    EmitInv (commitEmit s cand) := by
  rcases h with ⟨hchain, hle⟩
  cases cand with
  | none => exact ⟨hchain, hle⟩
  | some c =>
    change EmitInv (if c ≤ s.lastEmitted then s else ⟨c, s.emitted ++ [c]⟩)
    split_ifs with hc
    · exact ⟨hchain, hle⟩
    · constructor
      · rw [List.chain'_append]
        refine ⟨hchain, List.chain'_singleton c, ?_⟩
        intro x hx y hy
        have hx' : x ∈ s.emitted := getLast?_mem_list (Option.mem_def.mp hx)
        have hy' : y = c := by
          have := hy
          simp only [List.head?_cons, Option.mem_def, Option.some.injEq] at this
          exact this.symm
        have := hle x hx'
        rw [hy']
        linarith [lt_of_not_le hc]
      · intro x hx
        rcases List.mem_append.mp hx with hx' | hx'
        · exact le_of_lt (lt_of_le_of_lt (hle x hx') (lt_of_not_le hc))
        · simp only [List.mem_singleton] at hx'
          exact le_of_eq hx'

lemma runTicks_inv {s : EmitState} (h : EmitInv s) (ticks : List EmitTick) :
    EmitInv (runTicks s ticks) := by
  induction ticks generalizing s with
  | nil => exact h
  | cons t ts ih =>
    have h1 : EmitInv (emitStep s t) := commitEmit_inv h _
    exact ih h1

lemma runTicks_emitted_provenance (s : EmitState) (ticks : List EmitTick) :
    ∀ x ∈ (runTicks s ticks).emitted,
      x ∈ s.emitted ∨ ∃ t ∈ ticks, x ∈ t.windows ∧ x ≤ t.latestSensorTs - t.displayDelay := by
  induction ticks generalizing s with
  | nil => exact fun x hx => Or.inl hx
  | cons tk ts ih =>
    intro x hx
    rcases ih (emitStep s tk) x hx with hx' | ⟨t, ht, hmem⟩
    · unfold emitStep commitEmit at hx'
      rcases hsel : selectCandidate tk.windows (tk.latestSensorTs - tk.displayDelay)
          tk.lastEmittedSnap with _ | c
      · rw [hsel] at hx'
        exact Or.inl hx'
      · rw [hsel] at hx'
        have hc := getLast?_mem_list hsel
        rw [List.mem_filter] at hc
        have hprops := of_decide_eq_true hc.2
        change x ∈ (if c ≤ s.lastEmitted then s
          else (⟨c, s.emitted ++ [c]⟩ : EmitState)).emitted at hx'
        split_ifs at hx'
        · exact Or.inl hx'
        · rcases List.mem_append.mp hx' with hx'' | hx''
          · exact Or.inl hx''
          · simp only [List.mem_singleton] at hx''
            exact Or.inr ⟨tk, List.mem_cons_self _ _, hx'' ▸ hc.1, hx'' ▸ hprops.1⟩
    · exact Or.inr ⟨t, List.mem_cons_of_mem _ ht, hmem⟩

/-- C2: the emitted window timestamps of the live service are strictly
increasing along any sequence of _emit_delayed_heatmap_if_ready calls, even
when the candidate of each call was selected against a stale snapshot of
the last-emitted marker (the snapshots are unconstrained here, which covers
arbitrary interleavings of concurrent ticks); a window is therefore never
re-emitted.  Moreover every emitted timestamp was a window timestamp of
some tick and is at most that tick's latest_sensor_ts minus the display
delay, and a selected candidate always lies at or below the display cutoff
and strictly above the snapshot marker. -/
theorem c2_live_emission_strictly_monotone :
    (∀ (le : ℚ) (ticks : List EmitTick),
      (runTicks ⟨le, []⟩ ticks).emitted.Chain' (· < ·)) ∧
    (∀ (le : ℚ) (ticks : List EmitTick) (x : ℚ), x ∈ (runTicks ⟨le, []⟩ ticks).emitted →
      ∃ t ∈ ticks, x ∈ t.windows ∧ x ≤ t.latestSensorTs - t.displayDelay) ∧
    (∀ (windows : List ℚ) (cutoff snap c : ℚ), selectCandidate windows cutoff snap = some c →
      c ∈ windows ∧ c ≤ cutoff ∧ snap < c) := by
  refine ⟨?_, ?_, ?_⟩
  · intro le ticks
    have h0 : EmitInv ⟨le, []⟩ := ⟨List.chain'_nil, by intro x hx; simp at hx⟩
    exact (runTicks_inv h0 ticks).1
  · intro le ticks x hx
    rcases runTicks_emitted_provenance ⟨le, []⟩ ticks x hx with h | h
    · simp at h
    · exact h
  · intro windows cutoff snap c hsel
    have hc := getLast?_mem_list hsel
    rw [List.mem_filter] at hc
    have hprops := of_decide_eq_true hc.2
    exact ⟨hc.1, hprops.1, hprops.2⟩

/-- Witness for C2: a concrete two-tick run (the second tick holding a
stale snapshot) whose emissions are strictly increasing, and a concrete
candidate selection obeying the cutoff and marker constraints. -/
theorem c2_witness :
    (runTicks ⟨-100, []⟩
      [⟨[0, 1, 2], 10, 13/2, -100⟩, ⟨[0, 1, 2, 3], 11, 13/2, -100⟩]).emitted.Chain'
        (· < ·) ∧
    ((2 : ℚ) ∈ ([0, 1, 2] : List ℚ) ∧ (2 : ℚ) ≤ 10 - 13/2 ∧ (-100 : ℚ) < 2) :=
  ⟨c2_live_emission_strictly_monotone.1 (-100)
      [⟨[0, 1, 2], 10, 13/2, -100⟩, ⟨[0, 1, 2, 3], 11, 13/2, -100⟩],
   c2_live_emission_strictly_monotone.2.2 [0, 1, 2] (10 - 13/2) (-100) 2
     (by norm_num [selectCandidate, List.filter])⟩

lemma pyRound_intCast (z : ℤ) : pyRound (z : ℚ) = z := by
  unfold pyRound
  norm_num [Int.floor_intCast]

/-- C6: the estimated sample rate is round((n - 1) / (last - first)) when
n >= 2 and the span is positive, and the nominal default (250 Hz EEG,
11 Hz fNIRS) when the span is nonpositive or (EEG) when n < 2.  The fNIRS
estimator is only reached with n >= 2 (the scorer returns [] earlier
otherwise); its equations hold for every timestamp list. -/
theorem c6_sample_rate_estimation :
    (∀ ts : List ℚ, 2 ≤ ts.length → 0 < ts.getLastD 0 - ts.headD 0 →
      estSampleRateEeg ts = pyRound (((ts.length : ℚ) - 1) / (ts.getLastD 0 - ts.headD 0))) ∧
    (∀ ts : List ℚ, ts.length < 2 → estSampleRateEeg ts = DEFAULT_SAMPLE_RATE) ∧
    (∀ ts : List ℚ, ts.getLastD 0 - ts.headD 0 ≤ 0 →
      estSampleRateEeg ts = DEFAULT_SAMPLE_RATE) ∧
    (∀ ts : List ℚ, 0 < ts.getLastD 0 - ts.headD 0 →
      estSampleRateFnirs ts = pyRound (((ts.length : ℚ) - 1) / (ts.getLastD 0 - ts.headD 0))) ∧
    (∀ ts : List ℚ, ts.getLastD 0 - ts.headD 0 ≤ 0 →
      estSampleRateFnirs ts = DEFAULT_FNIRS_SAMPLE_RATE) := by
  refine ⟨?_, ?_, ?_, ?_, ?_⟩
  · intro ts hlen hdur
    unfold estSampleRateEeg
    rw [if_pos (by omega), if_pos hdur]
  · intro ts hlen
    unfold estSampleRateEeg
    rw [if_neg (by omega)]
  · intro ts hdur
    unfold estSampleRateEeg
    split_ifs with h1 h2
    · linarith
    · exact pyRound_intCast _
    · rfl
  · intro ts hdur
    unfold estSampleRateFnirs
    rw [if_pos hdur]
  · intro ts hdur
    unfold estSampleRateFnirs
    rw [if_neg (not_lt.mpr hdur)]

/-- Witness for C6 at concrete timestamp lists: three samples spanning two
seconds, a single sample, and two coincident samples. -/
theorem c6_witness :
    estSampleRateEeg [0, 1, 2] =
      pyRound ((((3 : ℕ) : ℚ) - 1) / (([0, 1, 2] : List ℚ).getLastD 0 - [0, 1, 2].headD 0)) ∧
    estSampleRateEeg [5] = DEFAULT_SAMPLE_RATE ∧
    estSampleRateEeg [3, 3] = DEFAULT_SAMPLE_RATE ∧
    estSampleRateFnirs [0, 1, 2] =
      pyRound ((((3 : ℕ) : ℚ) - 1) / (([0, 1, 2] : List ℚ).getLastD 0 - [0, 1, 2].headD 0)) ∧
    estSampleRateFnirs [3, 3] = DEFAULT_FNIRS_SAMPLE_RATE :=
  ⟨c6_sample_rate_estimation.1 [0, 1, 2] (by decide) (by norm_num [List.getLastD]),
   c6_sample_rate_estimation.2.1 [5] (by decide),
   c6_sample_rate_estimation.2.2.1 [3, 3] (by norm_num [List.getLastD]),
   c6_sample_rate_estimation.2.2.2.1 [0, 1, 2] (by norm_num [List.getLastD]),
   c6_sample_rate_estimation.2.2.2.2 [3, 3] (by norm_num [List.getLastD])⟩

/-- C3: when the post-trim sample count is below one window of samples
(window_sec times the estimated rate), both batch scorers return the empty
list; the embedded scorers are total functions, mirroring that this path
raises no exception. -/
theorem c3_short_input_returns_empty :
    (∀ (wIdx : List (List ℝ) → ℝ × ℝ) (tb : Option ℚ) (rows : List EegSample),
      (eegKeep tb rows).length < eegWindowSamples (eegTimestamps tb rows) →
      compute_oc_scores_eeg wIdx tb rows = []) ∧
    (∀ (tb : Option ℚ) (rows : List FnirsSample),
      (fnirsKeep tb rows).length < fnirsWindowSamples (fnirsTimestamps tb rows) →
      compute_oc_scores_fnirs tb rows = []) := by
  constructor
  · intro wIdx tb rows h
    unfold eegTimestamps at h
    simp only [compute_oc_scores_eeg]
    rw [if_pos h]
  · intro tb rows h
    unfold fnirsTimestamps at h
    simp only [compute_oc_scores_fnirs]
    by_cases h2 : (fnirsKeep tb rows).length < 2
    · rw [if_pos h2]
    · rw [if_neg h2, if_pos h]

/-- Witness for C3: a one-sample EEG recording (1 < 1000 window samples)
and a one-sample fNIRS recording (1 < 44 window samples) both score to []. -/
theorem c3_witness :
    compute_oc_scores_eeg (fun _ => ((0 : ℝ), (0 : ℝ))) none [⟨0, []⟩] = [] ∧
    compute_oc_scores_fnirs none [⟨0, 0, 0, 0, 0, 0, 0⟩] = [] :=
  ⟨c3_short_input_returns_empty.1 (fun _ => ((0 : ℝ), (0 : ℝ))) none [⟨0, []⟩]
     (by norm_num [eegWindowSamples, estSampleRateEeg, eegTimestamps, eegKeep,
       List.filter, DEFAULT_SAMPLE_RATE, WINDOW_SEC]),
   c3_short_input_returns_empty.2 none [⟨0, 0, 0, 0, 0, 0, 0⟩]
     (by norm_num [fnirsWindowSamples, estSampleRateFnirs, fnirsTimestamps, fnirsKeep,
       List.filter, List.getLastD, DEFAULT_FNIRS_SAMPLE_RATE, WINDOW_SEC])⟩

lemma zListOf_length (b n : ℕ) (l : List ℝ) : (zListOf b n l).length = l.length := by
  simp [zListOf]

lemma fuseOcScores_length (b n : ℕ) (fat eng : List ℝ) :
    (fuseOcScores b n fat eng).length = min eng.length fat.length := by
  simp [fuseOcScores, zListOf]

lemma fuseOcScores_getD (b n : ℕ) (fat eng : List ℝ) (i : ℕ)
    (hf : i < fat.length) (he : i < eng.length) :
    (fuseOcScores b n fat eng).getD i 0 =
      npClip (sigmoid (0.6 * (zListOf b n eng).getD i 0
        - 0.4 * (zListOf b n fat).getD i 0 + 0.8)) 0 1 := by
  have hfuse : i < (fuseOcScores b n fat eng).length := by
    rw [fuseOcScores_length]
    omega
  have hze : i < (zListOf b n eng).length := by rw [zListOf_length]; exact he
  have hzf : i < (zListOf b n fat).length := by rw [zListOf_length]; exact hf
  rw [List.getD_eq_getElem _ _ hfuse, List.getD_eq_getElem _ _ hze,
    List.getD_eq_getElem _ _ hzf]
  simp only [fuseOcScores, List.getElem_zipWith]

lemma buildOcRecords_length (nw : ℕ) (wts : List ℚ) (fat eng oc : List ℝ) :
    (buildOcRecords nw wts fat eng oc).length = nw := by
  simp [buildOcRecords]

lemma buildOcRecords_getD_oc (nw : ℕ) (wts : List ℚ) (fat eng oc : List ℝ) (i : ℕ)
    (hi : i < nw) :
    ((buildOcRecords nw wts fat eng oc).getD i oc0).oc_score = round4 (oc.getD i 0) := by
  have h : i < (buildOcRecords nw wts fat eng oc).length := by
    rw [buildOcRecords_length]; exact hi
  rw [List.getD_eq_getElem _ _ h]
  simp [buildOcRecords]

lemma eegFatigueList_length (wIdx : List (List ℝ) → ℝ × ℝ) (tb : Option ℚ)
    (rows : List EegSample) :
    (eegFatigueList wIdx tb rows).length = (eegWindowPairs wIdx tb rows).length := by
  simp [eegFatigueList]

lemma eegEngagementList_length (wIdx : List (List ℝ) → ℝ × ℝ) (tb : Option ℚ)
    (rows : List EegSample) :
    (eegEngagementList wIdx tb rows).length = (eegWindowPairs wIdx tb rows).length := by
  simp [eegEngagementList]

lemma compute_oc_scores_eeg_cases (wIdx : List (List ℝ) → ℝ × ℝ) (tb : Option ℚ)
    (rows : List EegSample) :
    compute_oc_scores_eeg wIdx tb rows = [] ∨
    compute_oc_scores_eeg wIdx tb rows =
      buildOcRecords (eegWindowPairs wIdx tb rows).length
        (eegWindowTimestamps tb rows)
        (eegFatigueList wIdx tb rows)
        (eegEngagementList wIdx tb rows)
        (eegOcList wIdx tb rows) := by
  simp only [compute_oc_scores_eeg]
  split_ifs
  · exact Or.inl rfl
  · exact Or.inr rfl

lemma fnirsEngagementList_length (tb : Option ℚ) (rows : List FnirsSample) :
    (fnirsEngagementList tb rows).length = (fnirsWindowPairs tb rows).length := by
  simp [fnirsEngagementList]

lemma fnirsFatigueList_length (tb : Option ℚ) (rows : List FnirsSample) :
    (fnirsFatigueList tb rows).length = (fnirsWindowPairs tb rows).length := by
  simp [fnirsFatigueList]

lemma compute_oc_scores_fnirs_cases (tb : Option ℚ) (rows : List FnirsSample) :
    compute_oc_scores_fnirs tb rows = [] ∨
    compute_oc_scores_fnirs tb rows =
      buildOcRecords (fnirsWindowPairs tb rows).length
        (fnirsWindowTimestamps tb rows)
        (fnirsFatigueList tb rows)
        (fnirsEngagementList tb rows)
        (fnirsOcList tb rows) := by
  simp only [compute_oc_scores_fnirs]
  split_ifs
  · exact Or.inl rfl
  · exact Or.inl rfl
  · exact Or.inl rfl
  · exact Or.inr rfl

/-- C1: every OC record produced by either batch scorer carries
oc_score = round4(clip(sigmoid(0.6 * z_engagement - 0.4 * z_fatigue + 0.8), 0, 1))
of the baseline z-scored index lists, and in particular every oc_score lies
in [0, 1]. -/
theorem c1_oc_score_fusion_formula_and_unit_range :
    (∀ (wIdx : List (List ℝ) → ℝ × ℝ) (tb : Option ℚ) (rows : List EegSample) (i : ℕ),
      i < (compute_oc_scores_eeg wIdx tb rows).length →
      ((compute_oc_scores_eeg wIdx tb rows).getD i oc0).oc_score =
        round4 (npClip (sigmoid (0.6 *
            (zListOf BASELINE_SEC (eegFatigueList wIdx tb rows).length
              (eegEngagementList wIdx tb rows)).getD i 0
          - 0.4 *
            (zListOf BASELINE_SEC (eegFatigueList wIdx tb rows).length
              (eegFatigueList wIdx tb rows)).getD i 0
          + 0.8)) 0 1) ∧
      0 ≤ ((compute_oc_scores_eeg wIdx tb rows).getD i oc0).oc_score ∧
      ((compute_oc_scores_eeg wIdx tb rows).getD i oc0).oc_score ≤ 1) ∧
    (∀ (tb : Option ℚ) (rows : List FnirsSample) (i : ℕ),
      i < (compute_oc_scores_fnirs tb rows).length →
      ((compute_oc_scores_fnirs tb rows).getD i oc0).oc_score =
        round4 (npClip (sigmoid (0.6 *
            (zListOf FNIRS_BASELINE_SEC (fnirsEngagementList tb rows).length
              (fnirsEngagementList tb rows)).getD i 0
          - 0.4 *
            (zListOf FNIRS_BASELINE_SEC (fnirsEngagementList tb rows).length
              (fnirsFatigueList tb rows)).getD i 0
          + 0.8)) 0 1) ∧
      0 ≤ ((compute_oc_scores_fnirs tb rows).getD i oc0).oc_score ∧
      ((compute_oc_scores_fnirs tb rows).getD i oc0).oc_score ≤ 1) := by
  constructor
  · intro wIdx tb rows i hi
    rcases compute_oc_scores_eeg_cases wIdx tb rows with hcase | hcase
    · rw [hcase] at hi
      simp at hi
    · rw [hcase] at hi ⊢
      rw [buildOcRecords_length] at hi
      have hf : i < (eegFatigueList wIdx tb rows).length := by
        rw [eegFatigueList_length]; exact hi
      have he : i < (eegEngagementList wIdx tb rows).length := by
        rw [eegEngagementList_length]; exact hi
      have hform := buildOcRecords_getD_oc (eegWindowPairs wIdx tb rows).length
        (eegWindowTimestamps tb rows) (eegFatigueList wIdx tb rows)
        (eegEngagementList wIdx tb rows) (eegOcList wIdx tb rows) i hi
      have hfuse : (eegOcList wIdx tb rows).getD i 0 =
          npClip (sigmoid (0.6 *
              (zListOf BASELINE_SEC (eegFatigueList wIdx tb rows).length
                (eegEngagementList wIdx tb rows)).getD i 0
            - 0.4 *
              (zListOf BASELINE_SEC (eegFatigueList wIdx tb rows).length
                (eegFatigueList wIdx tb rows)).getD i 0
            + 0.8)) 0 1 := by
        unfold eegOcList
        exact fuseOcScores_getD _ _ _ _ i hf he
      refine ⟨by rw [hform, hfuse], ?_, ?_⟩
      · rw [hform, hfuse]
        exact (round4_mem_unit (npClip_mem (by norm_num)).1 (npClip_mem (by norm_num)).2).1
      · rw [hform, hfuse]
        exact (round4_mem_unit (npClip_mem (by norm_num)).1 (npClip_mem (by norm_num)).2).2
  · intro tb rows i hi
    rcases compute_oc_scores_fnirs_cases tb rows with hcase | hcase
    · rw [hcase] at hi
      simp at hi
    · rw [hcase] at hi ⊢
      rw [buildOcRecords_length] at hi
      have hf : i < (fnirsFatigueList tb rows).length := by
        rw [fnirsFatigueList_length]; exact hi
      have he : i < (fnirsEngagementList tb rows).length := by
        rw [fnirsEngagementList_length]; exact hi
      have hform := buildOcRecords_getD_oc (fnirsWindowPairs tb rows).length
        (fnirsWindowTimestamps tb rows) (fnirsFatigueList tb rows)
        (fnirsEngagementList tb rows) (fnirsOcList tb rows) i hi
      have hfuse : (fnirsOcList tb rows).getD i 0 =
          npClip (sigmoid (0.6 *
              (zListOf FNIRS_BASELINE_SEC (fnirsEngagementList tb rows).length
                (fnirsEngagementList tb rows)).getD i 0
            - 0.4 *
              (zListOf FNIRS_BASELINE_SEC (fnirsEngagementList tb rows).length
                (fnirsFatigueList tb rows)).getD i 0
            + 0.8)) 0 1 := by
        unfold fnirsOcList
        exact fuseOcScores_getD _ _ _ _ i hf he
      refine ⟨by rw [hform, hfuse], ?_, ?_⟩
      · rw [hform, hfuse]
        exact (round4_mem_unit (npClip_mem (by norm_num)).1 (npClip_mem (by norm_num)).2).1
      · rw [hform, hfuse]
        exact (round4_mem_unit (npClip_mem (by norm_num)).1 (npClip_mem (by norm_num)).2).2

/-- Witness for C1: four-sample EEG and fNIRS recordings (estimated rate
1 Hz, one full window each) whose single record has its OC score in
[0, 1]. -/
theorem c1_witness :
    (0 ≤ ((compute_oc_scores_eeg (fun _ => ((0 : ℝ), (0 : ℝ))) none
        [⟨0, []⟩, ⟨1, []⟩, ⟨2, []⟩, ⟨3, []⟩]).getD 0 oc0).oc_score ∧
      ((compute_oc_scores_eeg (fun _ => ((0 : ℝ), (0 : ℝ))) none
        [⟨0, []⟩, ⟨1, []⟩, ⟨2, []⟩, ⟨3, []⟩]).getD 0 oc0).oc_score ≤ 1) ∧
    (0 ≤ ((compute_oc_scores_fnirs none
        [⟨0, 0, 0, 0, 0, 0, 0⟩, ⟨1, 0, 0, 0, 0, 0, 0⟩, ⟨2, 0, 0, 0, 0, 0, 0⟩,
         ⟨3, 0, 0, 0, 0, 0, 0⟩]).getD 0 oc0).oc_score ∧
      ((compute_oc_scores_fnirs none
        [⟨0, 0, 0, 0, 0, 0, 0⟩, ⟨1, 0, 0, 0, 0, 0, 0⟩, ⟨2, 0, 0, 0, 0, 0, 0⟩,
         ⟨3, 0, 0, 0, 0, 0, 0⟩]).getD 0 oc0).oc_score ≤ 1) :=
  ⟨(c1_oc_score_fusion_formula_and_unit_range.1 (fun _ => ((0 : ℝ), (0 : ℝ))) none
      [⟨0, []⟩, ⟨1, []⟩, ⟨2, []⟩, ⟨3, []⟩] 0
      (by norm_num [compute_oc_scores_eeg, buildOcRecords, eegWindowPairs, windowStarts,
        eegKeep, eegWindowSamples, eegStrideSamples, estSampleRateEeg, pyRound,
        List.filter, List.getLastD, DEFAULT_SAMPLE_RATE, WINDOW_SEC, STRIDE_SEC])).2,
   (c1_oc_score_fusion_formula_and_unit_range.2 none
      [⟨0, 0, 0, 0, 0, 0, 0⟩, ⟨1, 0, 0, 0, 0, 0, 0⟩, ⟨2, 0, 0, 0, 0, 0, 0⟩,
       ⟨3, 0, 0, 0, 0, 0, 0⟩] 0
      (by norm_num [compute_oc_scores_fnirs, buildOcRecords, fnirsWindowPairs,
        windowStarts, fnirsKeep, fnirsWindowSamples, fnirsStrideSamples,
        estSampleRateFnirs, pyRound, List.filter, List.getLastD,
        DEFAULT_FNIRS_SAMPLE_RATE, WINDOW_SEC, STRIDE_SEC])).2⟩

lemma range_map_getD {α : Type} (l : List α) (d : α) :
    (List.range l.length).map (fun i => l.getD i d) = l := by
  apply List.ext_getElem
  · simp
  · intro i h1 h2
    simp only [List.getElem_map, List.getElem_range]
    exact List.getD_eq_getElem l d h2

lemma applyPerm_perm {α : Type} (p : List ℕ) (l : List α) (d : α)
    (h : p.Perm (List.range l.length)) : (applyPerm p l d).Perm l := by
  have h1 : (applyPerm p l d).Perm ((List.range l.length).map fun i => l.getD i d) :=
    h.map fun i => l.getD i d
  rw [range_map_getD] at h1
  exact h1

/-- C4 (amended): series_from_rows orders the coerced rows by a
permutation that makes the timestamps non-decreasing; each output column is
a rearrangement of the corresponding input column.  The original claim
additionally demanded a stable sort (ties in input order), which
np.argsort with its default quicksort kind does not guarantee; see the
counterexample. -/
theorem c4_series_sorted_rearrangement :
    ∀ (p : List ℕ) (tb : Option ℚ) (rows : List FnirsRawRow),
      IsArgsortPerm p ((coerce_rows tb rows).map (·.timestamp)) →
      (series_from_rows_with p tb rows).timestamps.Sorted (· ≤ ·) ∧
      (series_from_rows_with p tb rows).timestamps.Perm
        ((coerce_rows tb rows).map (·.timestamp)) ∧
      (series_from_rows_with p tb rows).red_l_corr.Perm
        ((coerce_rows tb rows).map (·.red_l_corr)) ∧
      (series_from_rows_with p tb rows).temp.Perm
        ((coerce_rows tb rows).map (·.temp)) := by
  intro p tb rows h
  rcases h with ⟨hperm, hsorted⟩
  rw [List.length_map] at hperm
  refine ⟨?_, ?_, ?_, ?_⟩
  · simpa [series_from_rows_with] using hsorted
  · simp only [series_from_rows_with]
    exact applyPerm_perm p _ 0 (by rw [List.length_map]; exact hperm)
  · simp only [series_from_rows_with]
    exact applyPerm_perm p _ 0 (by rw [List.length_map]; exact hperm)
  · simp only [series_from_rows_with]
    exact applyPerm_perm p _ 0 (by rw [List.length_map]; exact hperm)

/-- Counterexample for C4 as stated: for two rows with equal timestamps and
distinct red_l values, the reversing permutation [1, 0] satisfies the full
argsort contract (it is a permutation of range(2) and sorts the equal
timestamps), yet the resulting series holds the rows out of input order —
so the claimed stability (ties in input order) does not follow from the
code, whose np.argsort call uses the default non-stable quicksort kind. -/
theorem c4_counterexample :
    IsArgsortPerm [1, 0]
      ((coerce_rows none [⟨0, 0, 1, 0, 0, 0, 0, 0, 0, 0, 0⟩,
        ⟨0, 0, 2, 0, 0, 0, 0, 0, 0, 0, 0⟩]).map (·.timestamp)) ∧
    (series_from_rows_with [1, 0] none [⟨0, 0, 1, 0, 0, 0, 0, 0, 0, 0, 0⟩,
        ⟨0, 0, 2, 0, 0, 0, 0, 0, 0, 0, 0⟩]).red_l_corr ≠
      (coerce_rows none [⟨0, 0, 1, 0, 0, 0, 0, 0, 0, 0, 0⟩,
        ⟨0, 0, 2, 0, 0, 0, 0, 0, 0, 0, 0⟩]).map (·.red_l_corr) := by
  constructor
  · constructor
    · simp only [coerce_rows, coerce_row, List.filter, List.map, List.length_cons,
        List.length_nil]
      exact List.Perm.swap 0 1 []
    · simp [IsArgsortPerm, applyPerm, coerce_rows, coerce_row, List.filter]
  · intro h
    simp only [series_from_rows_with, coerce_rows, coerce_row, applyPerm,
      List.filter, List.map, List.getD, List.get?, List.cons.injEq] at h
    norm_num at h

/-- Witness for C4 (amended) at a concrete sorted two-row input with the
identity permutation. -/
theorem c4_witness :
    (series_from_rows_with [0, 1] none [⟨0, 0, 1, 0, 0, 0, 0, 0, 0, 0, 0⟩,
        ⟨1, 0, 2, 0, 0, 0, 0, 0, 0, 0, 0⟩]).timestamps.Sorted (· ≤ ·) ∧
    (series_from_rows_with [0, 1] none [⟨0, 0, 1, 0, 0, 0, 0, 0, 0, 0, 0⟩,
        ⟨1, 0, 2, 0, 0, 0, 0, 0, 0, 0, 0⟩]).timestamps.Perm
      ((coerce_rows none [⟨0, 0, 1, 0, 0, 0, 0, 0, 0, 0, 0⟩,
        ⟨1, 0, 2, 0, 0, 0, 0, 0, 0, 0, 0⟩]).map (·.timestamp)) ∧
    (series_from_rows_with [0, 1] none [⟨0, 0, 1, 0, 0, 0, 0, 0, 0, 0, 0⟩,
        ⟨1, 0, 2, 0, 0, 0, 0, 0, 0, 0, 0⟩]).red_l_corr.Perm
      ((coerce_rows none [⟨0, 0, 1, 0, 0, 0, 0, 0, 0, 0, 0⟩,
        ⟨1, 0, 2, 0, 0, 0, 0, 0, 0, 0, 0⟩]).map (·.red_l_corr)) ∧
    (series_from_rows_with [0, 1] none [⟨0, 0, 1, 0, 0, 0, 0, 0, 0, 0, 0⟩,
        ⟨1, 0, 2, 0, 0, 0, 0, 0, 0, 0, 0⟩]).temp.Perm
      ((coerce_rows none [⟨0, 0, 1, 0, 0, 0, 0, 0, 0, 0, 0⟩,
        ⟨1, 0, 2, 0, 0, 0, 0, 0, 0, 0, 0⟩]).map (·.temp)) :=
  c4_series_sorted_rearrangement [0, 1] none
    [⟨0, 0, 1, 0, 0, 0, 0, 0, 0, 0, 0⟩, ⟨1, 0, 2, 0, 0, 0, 0, 0, 0, 0, 0⟩]
    (by constructor
        · simp only [coerce_rows, coerce_row, List.filter, List.map, List.length_cons,
            List.length_nil]
          exact List.Perm.refl _
        · simp [IsArgsortPerm, applyPerm, coerce_rows, coerce_row, List.filter])

lemma candIdxs_eq_zero (n : ℕ) (h : 0 < n) : candIdxs 0 n = [0] := by
  unfold candIdxs
  rw [List.filter_cons, List.filter_cons, List.filter_nil]
  rw [if_neg (by simp), if_pos (by simp; omega)]
  rfl

lemma candIdxs_eq_mid (idx n : ℕ) (h0 : 0 < idx) (h1 : idx < n) :
    candIdxs idx n = [idx - 1, idx] := by
  unfold candIdxs
  rw [List.filter_cons, List.filter_cons, List.filter_nil]
  rw [if_pos (by simp; omega), if_pos (by simp; omega)]
  simp

lemma candIdxs_eq_top (n : ℕ) (h0 : 0 < n) : candIdxs n n = [n - 1] := by
  unfold candIdxs
  rw [List.filter_cons, List.filter_cons, List.filter_nil]
  rw [if_pos (by simp; omega), if_neg (by simp)]
  simp

lemma bestOver_single (keys : List ℚ) (t : ℚ) (a : ℕ) :
    bestOver keys t [a] = some a := rfl

lemma bestOver_pair (keys : List ℚ) (t : ℚ) (a c : ℕ) :
    bestOver keys t [a, c] =
      if |keys.getD c 0 - t| < |keys.getD a 0 - t| then some c else some a := by
  simp [bestOver, List.foldl]

lemma bisect_left_le_length (keys : List ℚ) (t : ℚ) :
    bisect_left keys t ≤ keys.length :=
  List.countP_le_length _

lemma sorted_getElem_le {keys : List ℚ} (hs : keys.Sorted (· ≤ ·)) {i j : ℕ}
    (hij : i ≤ j) (hj : j < keys.length) :
    keys.get ⟨i, by omega⟩ ≤ keys.get ⟨j, hj⟩ := by
  rcases Nat.eq_or_lt_of_le hij with heq | hlt
  · subst heq
    exact le_refl _
  · exact hs.rel_get_of_lt (Fin.mk_lt_mk.mpr hlt)

lemma bisect_left_ge {keys : List ℚ} (hs : keys.Sorted (· ≤ ·)) (t : ℚ)
    (i : ℕ) (hi : i < keys.length) (h : keys.get ⟨i, hi⟩ < t) :
    i < bisect_left keys t := by
  have htake : (keys.take (i + 1)).countP (fun k => decide (k < t)) =
      (keys.take (i + 1)).length := by
    rw [List.countP_eq_length]
    intro a ha
    rcases List.mem_iff_getElem.mp ha with ⟨m, hm, hma⟩
    have hmlen : m < keys.length := by
      have := hm
      simp only [List.length_take] at this
      omega
    have hmi : m ≤ i := by
      have := hm
      simp only [List.length_take] at this
      omega
    have hval : (keys.take (i + 1)).get ⟨m, hm⟩ = keys.get ⟨m, hmlen⟩ := by
      simp [List.getElem_take]
    have hmono : keys.get ⟨m, hmlen⟩ ≤ keys.get ⟨i, hi⟩ := sorted_getElem_le hs hmi hi
    rw [← hma]
    simp only [List.get_eq_getElem] at hval ⊢
    rw [hval]
    simp only [decide_eq_true_eq]
    calc keys[m] ≤ keys[i] := hmono
    _ < t := h
  have hsub : (keys.take (i + 1)).countP (fun k => decide (k < t)) ≤
      bisect_left keys t := by
    unfold bisect_left
    exact (List.take_sublist (i + 1) keys).countP_le _
  rw [htake] at hsub
  simp only [List.length_take] at hsub
  omega

lemma bisect_left_lt {keys : List ℚ} (hs : keys.Sorted (· ≤ ·)) (t : ℚ)
    (i : ℕ) (hi : i < keys.length) (h : i < bisect_left keys t) :
    keys.get ⟨i, hi⟩ < t := by
  by_contra hc
  push_neg at hc
  have hdrop : (keys.drop i).countP (fun k => decide (k < t)) = 0 := by
    rw [List.countP_eq_zero]
    intro a ha
    rcases List.mem_iff_getElem.mp ha with ⟨m, hm, hma⟩
    have hlen : i + m < keys.length := by
      have := hm
      simp only [List.length_drop] at this
      omega
    have hval : (keys.drop i).get ⟨m, hm⟩ = keys.get ⟨i + m, hlen⟩ := by
      simp [List.getElem_drop]
    have hmono : keys.get ⟨i, hi⟩ ≤ keys.get ⟨i + m, hlen⟩ :=
      sorted_getElem_le hs (Nat.le_add_right i m) hlen
    rw [← hma]
    simp only [List.get_eq_getElem] at hval ⊢
    rw [hval]
    simp only [decide_eq_true_eq, not_lt]
    calc t ≤ keys[i] := hc
    _ ≤ keys[i + m] := hmono
  have hsplit : bisect_left keys t =
      (keys.take i).countP (fun k => decide (k < t)) +
      (keys.drop i).countP (fun k => decide (k < t)) := by
    unfold bisect_left
    rw [← List.countP_append, List.take_append_drop]
  have hlei : bisect_left keys t ≤ i := by
    rw [hsplit, hdrop, Nat.add_zero]
    calc (keys.take i).countP (fun k => decide (k < t)) ≤ (keys.take i).length :=
      List.countP_le_length _
    _ ≤ i := by simp [List.length_take]
  omega

lemma nearest_min {keys : List ℚ} (hs : keys.Sorted (· ≤ ·)) (t : ℚ) (hne : keys ≠ []) :
    ∃ b, ∃ hb : b < keys.length,
      bestOver keys t (candIdxs (bisect_left keys t) keys.length) = some b ∧
      ∀ j (hj : j < keys.length), |keys.get ⟨b, hb⟩ - t| ≤ |keys.get ⟨j, hj⟩ - t| := by
  have hn : 0 < keys.length := List.length_pos.mpr hne
  have hble : bisect_left keys t ≤ keys.length := bisect_left_le_length keys t
  rcases Nat.eq_zero_or_pos (bisect_left keys t) with hbl0 | hblpos
  · refine ⟨0, hn, ?_, ?_⟩
    · rw [hbl0, candIdxs_eq_zero _ hn, bestOver_single]
    · intro j hj
      have h0 : t ≤ keys.get ⟨0, hn⟩ := by
        by_contra hcc
        push_neg at hcc
        have := bisect_left_ge hs t 0 hn hcc
        omega
      have hjge : t ≤ keys.get ⟨j, hj⟩ := by
        by_contra hcc
        push_neg at hcc
        have := bisect_left_ge hs t j hj hcc
        omega
      have hmono : keys.get ⟨0, hn⟩ ≤ keys.get ⟨j, hj⟩ :=
        sorted_getElem_le hs (Nat.zero_le j) hj
      rw [abs_of_nonneg (by linarith), abs_of_nonneg (by linarith)]
      linarith
  · rcases eq_or_lt_of_le hble with hbleq | hbllt
    · have hb : bisect_left keys t - 1 < keys.length := by omega
      refine ⟨bisect_left keys t - 1, hb, ?_, ?_⟩
      · rw [hbleq, candIdxs_eq_top _ hn, bestOver_single]
      · intro j hj
        have hjlt : keys.get ⟨j, hj⟩ < t := bisect_left_lt hs t j hj (by omega)
        have hblt : keys.get ⟨bisect_left keys t - 1, hb⟩ < t :=
          bisect_left_lt hs t _ hb (by omega)
        have hmono : keys.get ⟨j, by omega⟩ ≤ keys.get ⟨bisect_left keys t - 1, hb⟩ :=
          sorted_getElem_le hs (by omega) hb
        rw [abs_of_neg (by linarith), abs_of_neg (by linarith)]
        linarith
    · have hb1 : bisect_left keys t - 1 < keys.length := by omega
      have hb2 : bisect_left keys t < keys.length := hbllt
      have hlow : keys.get ⟨bisect_left keys t - 1, hb1⟩ < t :=
        bisect_left_lt hs t _ hb1 (by omega)
      have hhigh : t ≤ keys.get ⟨bisect_left keys t, hb2⟩ := by
        by_contra hcc
        push_neg at hcc
        have := bisect_left_ge hs t _ hb2 hcc
        omega
      have hsel : bestOver keys t (candIdxs (bisect_left keys t) keys.length) =
          if |keys.getD (bisect_left keys t) 0 - t| <
              |keys.getD (bisect_left keys t - 1) 0 - t|
          then some (bisect_left keys t) else some (bisect_left keys t - 1) := by
        rw [candIdxs_eq_mid _ _ hblpos hbllt]
        exact bestOver_pair _ _ _ _
      rw [List.getD_eq_getElem _ _ hb2, List.getD_eq_getElem _ _ hb1] at hsel
      simp only [List.get_eq_getElem] at hlow hhigh
      split_ifs at hsel with hif
      · refine ⟨bisect_left keys t, hb2, hsel, ?_⟩
        intro j hj
        simp only [List.get_eq_getElem]
        by_cases hjb : j < bisect_left keys t
        · have hjlt : keys.get ⟨j, hj⟩ < t := bisect_left_lt hs t j hj hjb
          have hmono : keys.get ⟨j, by omega⟩ ≤ keys.get ⟨bisect_left keys t - 1, hb1⟩ :=
            sorted_getElem_le hs (by omega) hb1
          simp only [List.get_eq_getElem] at hjlt hmono
          rw [abs_of_nonneg (by linarith : (0:ℚ) ≤ keys[bisect_left keys t] - t),
            abs_of_neg (by linarith : keys[bisect_left keys t - 1] - t < 0)] at hif
          rw [abs_of_nonneg (by linarith : (0:ℚ) ≤ keys[bisect_left keys t] - t),
            abs_of_neg (by linarith : keys[j] - t < 0)]
          linarith
        · have htj : t ≤ keys.get ⟨j, hj⟩ := by
            by_contra hcc
            push_neg at hcc
            have := bisect_left_ge hs t j hj hcc
            omega
          have hmono : keys.get ⟨bisect_left keys t, by omega⟩ ≤ keys.get ⟨j, hj⟩ :=
            sorted_getElem_le hs (by omega) hj
          simp only [List.get_eq_getElem] at htj hmono
          rw [abs_of_nonneg (by linarith : (0:ℚ) ≤ keys[bisect_left keys t] - t),
            abs_of_nonneg (by linarith : (0:ℚ) ≤ keys[j] - t)]
          linarith
      · push_neg at hif
        refine ⟨bisect_left keys t - 1, hb1, hsel, ?_⟩
        intro j hj
        simp only [List.get_eq_getElem]
        by_cases hjb : j < bisect_left keys t
        · have hjlt : keys.get ⟨j, hj⟩ < t := bisect_left_lt hs t j hj hjb
          have hmono : keys.get ⟨j, by omega⟩ ≤ keys.get ⟨bisect_left keys t - 1, hb1⟩ :=
            sorted_getElem_le hs (by omega) hb1
          simp only [List.get_eq_getElem] at hjlt hmono
          rw [abs_of_neg (by linarith : keys[bisect_left keys t - 1] - t < 0),
            abs_of_neg (by linarith : keys[j] - t < 0)]
          linarith
        · have htj : t ≤ keys.get ⟨j, hj⟩ := by
            by_contra hcc
            push_neg at hcc
            have := bisect_left_ge hs t j hj hcc
            omega
          have hmono : keys.get ⟨bisect_left keys t, by omega⟩ ≤ keys.get ⟨j, hj⟩ :=
            sorted_getElem_le hs (by omega) hj
          simp only [List.get_eq_getElem] at htj hmono
          rw [abs_of_nonneg (by linarith : (0:ℚ) ≤ keys[bisect_left keys t] - t),
            abs_of_neg (by linarith : keys[bisect_left keys t - 1] - t < 0)] at hif
          rw [abs_of_neg (by linarith : keys[bisect_left keys t - 1] - t < 0),
            abs_of_nonneg (by linarith : (0:ℚ) ≤ keys[j] - t)]
          linarith

lemma match_oc_score_t_some (vals : List ℚ) (bySec : ℤ → Option ℚ)
    {keys : List ℚ} {rec : GameRecord} {t : ℚ}
    (ht : rec.t = some t) (hne : keys ≠ []) {b : ℕ}
    (hsel : bestOver keys t (candIdxs (bisect_left keys t) keys.length) = some b) :
    match_oc_score rec keys vals bySec =
      if 5/2 < |keys.getD b 0 - t| then ((1 : ℚ)/2, false) else (vals.getD b 0, true) := by
  unfold match_oc_score
  simp only [ht, Option.getD_some, Option.isSome_some, and_true, hsel]
  rw [if_pos hne]

/-- C5: for a record carrying t and a nonempty sorted timestamp index, the
matcher selects an index b whose key globally minimizes the distance to t;
within the 2.5 s tolerance it returns that OC value flagged matched, beyond
it the neutral (0.5, unmatched).  Absent t, a missing exact sec lookup also
yields (0.5, unmatched). -/
theorem c5_match_oc_score_nearest :
    (∀ (keys vals : List ℚ) (bySec : ℤ → Option ℚ) (rec : GameRecord) (t : ℚ),
      keys.Sorted (· ≤ ·) → rec.t = some t → keys ≠ [] →
      ∃ b, ∃ hb : b < keys.length,
        (∀ j (hj : j < keys.length),
          |keys.get ⟨b, hb⟩ - t| ≤ |keys.get ⟨j, hj⟩ - t|) ∧
        (|keys.get ⟨b, hb⟩ - t| ≤ 5/2 →
          match_oc_score rec keys vals bySec = (vals.getD b 0, true)) ∧
        (5/2 < |keys.get ⟨b, hb⟩ - t| →
          match_oc_score rec keys vals bySec = (1/2, false))) ∧
    (∀ (keys vals : List ℚ) (bySec : ℤ → Option ℚ) (rec : GameRecord),
      rec.t = none → bySec (rec.sec.getD (rec.s.getD 0)) = none →
      match_oc_score rec keys vals bySec = (1/2, false)) := by
  constructor
  · intro keys vals bySec rec t hs ht hne
    obtain ⟨b, hb, hsel, hmin⟩ := nearest_min hs t hne
    have hred := match_oc_score_t_some vals bySec ht hne hsel
    have hgd : keys.getD b 0 = keys.get ⟨b, hb⟩ := by
      rw [List.getD_eq_getElem _ _ hb]
      rfl
    refine ⟨b, hb, hmin, ?_, ?_⟩
    · intro hdist
      rw [hred, hgd, if_neg (not_lt.mpr hdist)]
    · intro hdist
      rw [hred, hgd, if_pos hdist]
  · intro keys vals bySec rec ht hlook
    unfold match_oc_score
    rw [ht, if_neg (by simp), hlook]

/-- Witness for C5: keys [0, 3] and values [7, 9]; a record at t = 1 has
nearest key 0 (distance 1, within tolerance) and so matches value 7, and a
t-less record with an empty sec lookup falls back to (0.5, unmatched). -/
theorem c5_witness :
    (∃ b, ∃ hb : b < ([0, 3] : List ℚ).length,
      (∀ j (hj : j < ([0, 3] : List ℚ).length),
        |([0, 3] : List ℚ).get ⟨b, hb⟩ - 1| ≤ |([0, 3] : List ℚ).get ⟨j, hj⟩ - 1|) ∧
      (|([0, 3] : List ℚ).get ⟨b, hb⟩ - 1| ≤ 5/2 →
        match_oc_score ⟨some 1, none, none⟩ [0, 3] [7, 9] (fun _ => none) =
          (([7, 9] : List ℚ).getD b 0, true)) ∧
      (5/2 < |([0, 3] : List ℚ).get ⟨b, hb⟩ - 1| →
        match_oc_score ⟨some 1, none, none⟩ [0, 3] [7, 9] (fun _ => none) =
          (1/2, false))) ∧
    match_oc_score ⟨none, some 4, none⟩ [0, 3] [7, 9] (fun _ => none) = (1/2, false) :=
  ⟨c5_match_oc_score_nearest.1 [0, 3] [7, 9] (fun _ => none) ⟨some 1, none, none⟩ 1
      (by decide) rfl (by decide),
   c5_match_oc_score_nearest.2 [0, 3] [7, 9] (fun _ => none) ⟨none, some 4, none⟩
      rfl rfl⟩

end NeuroLabel
